import Mathlib

/-!
Region-query engine: shallow embedding and verification.

This file embeds the core of the region-query repository in Lean 4 and
proves/refutes the frozen claims about it.

The embedding covers:
* the geometry primitives (`Point`, `Rectangle`, containment/intersection,
  validity) from `src/solution 2` / `src/solution 1` (`Rectangle.cpp`,
  `Point.h`);
* the crop-query data model (`CropQuery`, `QuerySpec`) from
  `src/solution 2/src/query/JsonParser.h`;
* the brute-force (reference) evaluator
  `QueryEngine::executeQueryBruteForce` from
  `src/solution 2/src/query/QueryEngine.cpp`;
* the database-backed evaluator `DatabaseManager::executeCropQuery` /
  `getProperGroups` from `src/solution 2/src/database/DatabaseManager.cpp`
  (the SQL store itself is external; its relational semantics over the
  point population is embedded directly);
* the operator-tree layer (`AndOperator`, `OrOperator`, `CropOperator`,
  `PointSetUtils`) from `src/solution 3/src/operators`.

Coordinates (`double` in C++) are modelled as rationals; ids, group ids and
categories (integers in C++) as `Int`.  `std::sort` with the `(y, x)`
comparator `Point::operator<` is modelled as insertion sort with the
reflexive closure of that comparator (any C++ `std::sort` output is sorted
with respect to it; the spec's data model prescribes deterministic
tie-breaking).
-/

/-- A 2D point with identity, group and category tags
(`src/solution 1/src/data/Point.h`). -/
structure Point where
  x : ℚ
  y : ℚ
  id : Int
  group_id : Int
  category : Int
  deriving DecidableEq, Repr

/-- The strict `(y, x)` ordering used by `Point::operator<`. -/
def pLt (p q : Point) : Prop :=
  p.y < q.y ∨ (p.y = q.y ∧ p.x < q.x)

/-- The total preorder a `std::sort` output with comparator `pLt`
satisfies: `pLe p q ↔ ¬ pLt q p`. -/
def pLe (p q : Point) : Prop :=
  p.y < q.y ∨ (p.y = q.y ∧ p.x ≤ q.x)

instance : DecidableRel pLt := fun p q => by unfold pLt; infer_instance

instance : DecidableRel pLe := fun p q => by unfold pLe; infer_instance

instance : IsTotal Point pLe where
  total p q := by
    unfold pLe
    rcases lt_trichotomy p.y q.y with h | h | h
    · exact Or.inl (Or.inl h)
    · rcases le_total p.x q.x with hx | hx
      · exact Or.inl (Or.inr ⟨h, hx⟩)
      · exact Or.inr (Or.inr ⟨h.symm, hx⟩)
    · exact Or.inr (Or.inl h)

instance : IsTrans Point pLe where
  trans p q r hpq hqr := by
    unfold pLe at *
    rcases hpq with h1 | ⟨e1, hx1⟩
    · rcases hqr with h2 | ⟨e2, _⟩
      · exact Or.inl (h1.trans h2)
      · exact Or.inl (e2 ▸ h1)
    · rcases hqr with h2 | ⟨e2, hx2⟩
      · exact Or.inl (e1 ▸ h2)
      · exact Or.inr ⟨e1.trans e2, hx1.trans hx2⟩

instance : IsAntisymm Point pLt where
  antisymm p q hpq hqp := by
    unfold pLt at *
    rcases hpq with h1 | ⟨e1, hx1⟩ <;> rcases hqp with h2 | ⟨e2, hx2⟩
    · exact absurd (h1.trans h2) (lt_irrefl _)
    · exact absurd h1 (e2 ▸ lt_irrefl _)
    · exact absurd h2 (e1 ▸ lt_irrefl _)
    · exact absurd (hx1.trans hx2) (lt_irrefl _)

/-- `std::sort(points.begin(), points.end())` with `Point::operator<`:
modelled as insertion sort by the total preorder `pLe`. -/
def sortPoints (l : List Point) : List Point :=
  l.insertionSort pLe

/-- An axis-aligned rectangle (`src/.../geometry/Rectangle.h`): corners
`p_min`, `p_max`; only the coordinates of the corner points are used. -/
structure Rectangle where
  min_x : ℚ
  min_y : ℚ
  max_x : ℚ
  max_y : ℚ
  deriving DecidableEq, Repr

/-- `Rectangle::contains` — inclusive on all four bounds
(`src/unnamed/part_000`, Rectangle.cpp). -/
def Rectangle.containsPt (r : Rectangle) (p : Point) : Prop :=
  p.x ≥ r.min_x ∧ p.x ≤ r.max_x ∧ p.y ≥ r.min_y ∧ p.y ≤ r.max_y

instance (r : Rectangle) (p : Point) : Decidable (r.containsPt p) := by
  unfold Rectangle.containsPt; infer_instance

/-- `Rectangle::intersects` (`src/unnamed/part_000`, Rectangle.cpp). -/
def Rectangle.intersects (r o : Rectangle) : Prop :=
  ¬ (r.max_x < o.min_x ∨ r.min_x > o.max_x ∨ r.max_y < o.min_y ∨ r.min_y > o.max_y)

instance (r o : Rectangle) : Decidable (r.intersects o) := by
  unfold Rectangle.intersects; infer_instance

/-- `Rectangle::isValid` (`src/unnamed/part_000`, Rectangle.cpp). -/
def Rectangle.isValid (r : Rectangle) : Prop :=
  r.min_x ≤ r.max_x ∧ r.min_y ≤ r.max_y

instance (r : Rectangle) : Decidable r.isValid := by
  unfold Rectangle.isValid; infer_instance

/-- The crop query of `src/solution 2/src/query/JsonParser.h`: a region,
an optional category filter, an optional `one_of_groups` filter (empty
list = no filter in both cases) and the tri-state `proper` flag
(`std::optional<bool>`). -/
structure CropQuery where
  region : Rectangle
  category_filter : List Int
  group_filter : List Int
  proper : Option Bool
  deriving DecidableEq, Repr

/-- `QuerySpec` (`src/solution 2/src/query/JsonParser.h`): query-global
valid region plus the crop query. -/
structure QuerySpec where
  valid_region : Rectangle
  crop_query : CropQuery
  deriving DecidableEq, Repr

/-! ## Set algebra over point vectors (`src/solution 3`, PointSetUtils) -/

namespace PointSetUtils

/-- The `seenIds`-set loop pattern used throughout `QueryOperator.cpp`:
keep the first occurrence of each id, in input order. -/
def dedupByIdAux (seen : List Int) : List Point → List Point
  | [] => []
  | p :: ps =>
    if seen.contains p.id then dedupByIdAux seen ps
    else p :: dedupByIdAux (p.id :: seen) ps

/-- `PointSetUtils::deduplicateAndSort`: drop duplicate ids (first
occurrence wins), then sort by `(y, x)`. -/
def deduplicateAndSort (points : List Point) : List Point :=
  sortPoints (dedupByIdAux [] points)

/-- The ids of a point list (the contents of the `std::set<long long>`
id sets of `intersectPoints`; only membership is ever used). -/
def idsOf (l : List Point) : List Int :=
  l.map (·.id)

/-- `PointSetUtils::intersectPoints`: intersect the id sets of all input
sets, take the data of surviving ids from the first set, then
deduplicate and sort. -/
def intersectPoints (pointSets : List (List Point)) : List Point :=
  match pointSets with
  | [] => []
  | s :: rest =>
    if rest.isEmpty then deduplicateAndSort s
    else
      let common := rest.foldl (fun acc t => acc.filter (fun i => (idsOf t).contains i)) (idsOf s)
      deduplicateAndSort (s.filter (fun p => common.contains p.id))

/-- `PointSetUtils::unionPoints`: one pass over all sets in order keeping
the first occurrence of each id, then deduplicate and sort. -/
def unionPoints (pointSets : List (List Point)) : List Point :=
  deduplicateAndSort (dedupByIdAux [] pointSets.flatten)

end PointSetUtils

/-! ## The operator layer (`src/solution 3/src/operators`) -/

namespace AndOperator

/-- The operand loop of `AndOperator::execute`: collect child results in
listed order, stopping right after the first empty one.  Returns the
collected results, the number of children actually executed, and whether
the loop terminated early on an empty child result. -/
def run : List (List Point) → List (List Point) × Nat × Bool
  | [] => ([], 0, false)
  | r :: rest =>
    if r.isEmpty then ([r], 1, true)
    else
      let (c, n, e) := run rest
      (r :: c, n + 1, e)

/-- `AndOperator::execute`, as a function of the child results: empty
operand list returns empty; the loop early-returns `{}` on the first
empty child; otherwise the intersection of all child results. -/
def execute (results : List (List Point)) : List Point :=
  match results with
  | [] => []
  | _ :: _ =>
    let (collected, _, early) := run results
    if early then [] else PointSetUtils.intersectPoints collected

/-- Number of children the `AndOperator::execute` loop actually runs. -/
def evaluatedCount (results : List (List Point)) : Nat :=
  (run results).2.1

end AndOperator

namespace OrOperator

/-- `OrOperator::execute`, as a function of the child results: empty
operand list returns empty; otherwise the union of all child results
(all children are executed — no short-circuit). -/
def execute (results : List (List Point)) : List Point :=
  match results with
  | [] => []
  | _ :: _ => PointSetUtils.unionPoints results

end OrOperator

/-! ## The brute-force (reference) evaluator
(`src/solution 2/src/query/QueryEngine.cpp`, `executeQueryBruteForce`) -/

namespace QueryEngine

/-- Whether every point of `pop` carrying `group_id = g` lies in
`valid`: the per-group "all_within_valid" loop of
`executeQueryBruteForce` step 1. -/
def allWithinValid (valid : Rectangle) (pop : List Point) (g : Int) : Bool :=
  pop.all (fun p => p.group_id ≠ g || decide (valid.containsPt p))

/-- Step 1 of `executeQueryBruteForce`: the proper-group set built from
the `groups_map` of all cached points — the group ids occurring in the
population whose points all lie inside the valid region.  (Only set
membership is used downstream.) -/
def properGroupsList (valid : Rectangle) (pop : List Point) : List Int :=
  ((pop.map (·.group_id)).dedup).filter (allWithinValid valid pop)

/-- The per-point filter of step 2 of `executeQueryBruteForce`: crop
region, category filter, group filter, then the proper constraint
against the precomputed proper-group set. -/
def matchesCrop (q : CropQuery) (pg : List Int) (p : Point) : Bool :=
  decide (q.region.containsPt p) &&
  (q.category_filter.isEmpty || q.category_filter.contains p.category) &&
  (q.group_filter.isEmpty || q.group_filter.contains p.group_id) &&
  (match q.proper with
   | none => true
   | some true => pg.contains p.group_id
   | some false => !pg.contains p.group_id)

/-- `QueryEngine::executeQueryBruteForce` (validation aside): compute the
proper groups only when the proper constraint is present, filter the
cached points, sort by `(y, x)`. -/
def executeQueryBruteForce (valid : Rectangle) (q : CropQuery) (pop : List Point) : List Point :=
  let pg := if q.proper.isSome then properGroupsList valid pop else []
  sortPoints (pop.filter (matchesCrop q pg))

/-- `QueryEngine::validateQuery`: reject an invalid valid region or an
invalid crop region with an error; a crop region that does not intersect
the valid region only produces a console warning and does not stop
execution. -/
def validateQuery (spec : QuerySpec) : Option String :=
  if ¬ spec.valid_region.isValid then
    some "Invalid valid_region: p_min must be <= p_max in both dimensions"
  else if ¬ spec.crop_query.region.isValid then
    some "Invalid crop region: p_min must be <= p_max in both dimensions"
  else
    none

/-- The full `executeQueryBruteForce` entry point: `validateQuery` throws
before any evaluation; otherwise the brute-force evaluation result is
returned. -/
def executeQueryChecked (spec : QuerySpec) (pop : List Point) : Except String (List Point) :=
  match validateQuery spec with
  | some e => .error e
  | none => .ok (executeQueryBruteForce spec.valid_region spec.crop_query pop)

end QueryEngine

/-! ## The database-backed (primary) evaluator
(`src/solution 2/src/database/DatabaseManager.cpp`)

The SQL store is an external collaborator: the embedding gives the
relational semantics of the generated SQL over the same point
population that `getAllPoints()` would snapshot (the spec's point-source
contract, §6). -/

namespace DatabaseManager

/-- SQL `MIN` aggregate over a group's values (`none` for an empty
group, which `GROUP BY` never produces). -/
def aggMin : List ℚ → Option ℚ
  | [] => none
  | v :: vs => some (vs.foldl min v)

/-- SQL `MAX` aggregate over a group's values. -/
def aggMax : List ℚ → Option ℚ
  | [] => none
  | v :: vs => some (vs.foldl max v)

/-- The `HAVING` clause of `DatabaseManager::getProperGroups`:
`MIN(coord_x) >= $1 AND MAX(coord_x) <= $2 AND MIN(coord_y) >= $3 AND
MAX(coord_y) <= $4` evaluated on the rows of one group. -/
def havingProper (valid : Rectangle) (members : List Point) : Bool :=
  match aggMin (members.map (·.x)), aggMax (members.map (·.x)),
        aggMin (members.map (·.y)), aggMax (members.map (·.y)) with
  | some mnx, some mxx, some mny, some mxy =>
    decide (valid.min_x ≤ mnx) && decide (mxx ≤ valid.max_x) &&
    decide (valid.min_y ≤ mny) && decide (mxy ≤ valid.max_y)
  | _, _, _, _ => false

/-- `DatabaseManager::getProperGroups`: `SELECT group_id FROM
inspection_region GROUP BY group_id HAVING ...` — the group ids occurring
in the population whose member rows pass `havingProper`. -/
def getProperGroups (valid : Rectangle) (pop : List Point) : List Int :=
  ((pop.map (·.group_id)).dedup).filter
    (fun g => havingProper valid (pop.filter (fun p => p.group_id = g)))

/-- Modelled from the spec: `DatabaseManager::getImproperGroups` is
declared in `DatabaseManager.h` ("groups that have at least one point
outside the valid region", taking the proper groups as a precomputed
argument) but its body is not under `src/`; following the declaration
and spec §4.2, it is the occurring groups not in the proper set. -/
def getImproperGroups (valid : Rectangle) (pop : List Point) : List Int :=
  ((pop.map (·.group_id)).dedup).filter
    (fun g => !(getProperGroups valid pop).contains g)

/-- The `WHERE` clause built by `DatabaseManager::buildCropQuery`: crop
region bound comparisons, optional `category IN (...)`, optional
`group_id IN (...)`, optional `group_id IN (proper groups)`. -/
def sqlWhere (crop : Rectangle) (category_filter group_filter proper_groups : List Int)
    (p : Point) : Bool :=
  decide (p.x ≥ crop.min_x) && decide (p.x ≤ crop.max_x) &&
  decide (p.y ≥ crop.min_y) && decide (p.y ≤ crop.max_y) &&
  (category_filter.isEmpty || category_filter.contains p.category) &&
  (group_filter.isEmpty || group_filter.contains p.group_id) &&
  (proper_groups.isEmpty || proper_groups.contains p.group_id)

/-- The rows the generated `SELECT` returns (spec §6 point-source
contract: exactly the points of the population passing the filters),
followed by the `std::sort` by `(y, x)` in `executeCropQuery`. -/
def runSelect (crop : Rectangle) (category_filter group_filter proper_groups : List Int)
    (pop : List Point) : List Point :=
  sortPoints (pop.filter (sqlWhere crop category_filter group_filter proper_groups))

/-- Modelled from the spec: the tri-state `executeCropQuery` whose
declaration (with `std::optional<bool> proper_constraint`) is in
`DatabaseManager.h` but whose body is not under `src/` (only the older
two-state `proper_only` body is).  Following the header documentation
("true=proper groups, false=improper groups, nullopt=ignore"), spec
§4.2, and the present `proper_only` body for the `true` branch: when the
constraint is `true`, fetch the proper groups, return empty early when
there are none (an empty list handed to `buildCropQuery` would mean "no
condition"), else add them as a `group_id IN` condition; when it is
`false`, restrict to the improper groups in the same way; when absent,
no group-class condition at all. -/
def executeCropQuery (crop valid : Rectangle) (category_filter group_filter : List Int)
    (proper : Option Bool) (pop : List Point) : List Point :=
  match proper with
  | none => runSelect crop category_filter group_filter [] pop
  | some true =>
    let proper_groups := getProperGroups valid pop
    if proper_groups.isEmpty then []
    else runSelect crop category_filter group_filter proper_groups pop
  | some false =>
    let improper_groups := getImproperGroups valid pop
    if improper_groups.isEmpty then []
    else runSelect crop category_filter group_filter improper_groups pop

end DatabaseManager

/-! ## The operator tree (`src/solution 3`) -/

/-- The operator tree built by `ExtendedJsonParser`: a crop leaf
(`CropOperator`, with optional category, optional `one_of_groups`,
optional proper flag), or an `AndOperator`/`OrOperator` over children. -/
inductive QOp where
  | crop (region : Rectangle) (category : Option Int)
      (one_of_groups : Option (List Int)) (proper : Option Bool)
  | and (children : List QOp)
  | or (children : List QOp)
  deriving Repr

mutual

/-- `QueryOperator::execute` over the population snapshot: a crop leaf
runs `DatabaseManager::executeCropQuery` (as `CropOperator::execute`
does, turning the optional category into a one-element filter and the
optional group list into a filter list); `and`/`or` nodes execute their
children in listed order and combine them. -/
def QOp.execute (vr : Rectangle) (pop : List Point) : QOp → List Point
  | .crop region category one_of_groups proper =>
    DatabaseManager.executeCropQuery region vr
      (match category with | none => [] | some c => [c])
      (one_of_groups.getD []) proper pop
  | .and cs => AndOperator.execute (QOp.executeList vr pop cs)
  | .or cs => OrOperator.execute (QOp.executeList vr pop cs)

/-- The child results of an operator node, in listed order. -/
def QOp.executeList (vr : Rectangle) (pop : List Point) : List QOp → List (List Point)
  | [] => []
  | c :: cs => c.execute vr pop :: QOp.executeList vr pop cs

end

/-! ## Population well-formedness (spec data model)

The spec's data model declares point ids unique ("id: integer (unique);
identity is id").  `keysInj` states that no two distinct points of a
population share the same `(y, x)` coordinates — the condition under
which the `(y, x)` sort order determines result sequences uniquely. -/

/-- The spec's data-model uniqueness of ids, for a population list. -/
def idsUnique (pop : List Point) : Prop :=
  (pop.map (·.id)).Nodup

/-- No two distinct points of the population share `(y, x)`. -/
def keysInj (pop : List Point) : Prop :=
  ∀ p ∈ pop, ∀ q ∈ pop, p.y = q.y → p.x = q.x → p = q

instance (pop : List Point) : Decidable (idsUnique pop) := by
  unfold idsUnique; infer_instance

instance (pop : List Point) : Decidable (keysInj pop) := by
  unfold keysInj; infer_instance

/-! ## Concrete example data (used by counterexamples and witnesses) -/

namespace Example

/-- The spec §8 scenario population: ids 1–4 at (10,10), (20,20),
(30,30), (40,40); groups 1,1,2,2; category 1. -/
def popMain : List Point :=
  [⟨10, 10, 1, 1, 1⟩, ⟨20, 20, 2, 1, 1⟩, ⟨30, 30, 3, 2, 1⟩, ⟨40, 40, 4, 2, 1⟩]

/-- The spec §8 valid region [(0,0) - (25,25)]. -/
def vrMain : Rectangle := ⟨0, 0, 25, 25⟩

/-- A crop region covering everything. -/
def rectAll : Rectangle := ⟨0, 0, 100, 100⟩

/-- A population with two distinct points sharing coordinates (0,0):
ids 1 and 2, categories 1 and 2. -/
def popTie : List Point := [⟨0, 0, 1, 1, 1⟩, ⟨0, 0, 2, 2, 2⟩]

/-- Crop leaf selecting category 1 only. -/
def leafCat1 : QOp := .crop rectAll (some 1) none none

/-- Crop leaf selecting category 2 only. -/
def leafCat2 : QOp := .crop rectAll (some 2) none none

/-- An `or` subtree whose result lists the id-2 tie point before the
id-1 tie point. -/
def opScrambled : QOp := .or [leafCat2, leafCat1]

/-- A plain crop leaf returning the tie points in population order. -/
def opPlain : QOp := .crop rectAll none none none

end Example

/-! ## Basic lemmas about sorting and id-deduplication -/

theorem sortPoints_perm (l : List Point) : List.Perm (sortPoints l) l :=
  List.perm_insertionSort pLe l

theorem sortPoints_sorted (l : List Point) : (sortPoints l).Sorted pLe :=
  List.sorted_insertionSort pLe l

theorem mem_sortPoints {l : List Point} {p : Point} : p ∈ sortPoints l ↔ p ∈ l :=
  (sortPoints_perm l).mem_iff

theorem sortPoints_of_sorted {l : List Point} (h : l.Sorted pLe) : sortPoints l = l :=
  h.insertionSort_eq

namespace PointSetUtils

theorem dedupByIdAux_sublist : ∀ (seen : List Int) (l : List Point),
    List.Sublist (dedupByIdAux seen l) l := by
  intro seen l
  induction l generalizing seen with
  | nil => simp [dedupByIdAux]
  | cons p ps ih =>
    by_cases h : p.id ∈ seen
    · rw [dedupByIdAux, if_pos (by simpa using h)]
      exact (ih seen).trans (List.sublist_cons_self p ps)
    · rw [dedupByIdAux, if_neg (by simpa using h)]
      exact (ih (p.id :: seen)).cons₂ p

theorem mem_of_mem_dedupByIdAux {seen : List Int} {l : List Point} {p : Point}
    (h : p ∈ dedupByIdAux seen l) : p ∈ l :=
  (dedupByIdAux_sublist seen l).mem h

/-- A point surviving the id-dedup pass is the first point of the input
carrying its id (and its id was not in the initial seen set). -/
theorem find_of_mem_dedupByIdAux : ∀ {seen : List Int} {l : List Point} {p : Point},
    p ∈ dedupByIdAux seen l →
    p.id ∉ seen ∧ l.find? (fun q => q.id == p.id) = some p := by
  intro seen l
  induction l generalizing seen with
  | nil => intro p h; simp [dedupByIdAux] at h
  | cons q qs ih =>
    intro p hp
    by_cases hq : q.id ∈ seen
    · rw [dedupByIdAux, if_pos (by simpa using hq)] at hp
      obtain ⟨hns, hfind⟩ := ih hp
      have hne : (q.id == p.id) = false := by
        simp only [beq_eq_false_iff_ne, ne_eq]
        intro e
        exact hns (e ▸ hq)
      rw [List.find?_cons, hne]
      exact ⟨hns, hfind⟩
    · rw [dedupByIdAux, if_neg (by simpa using hq)] at hp
      rcases List.mem_cons.mp hp with rfl | hp
      · refine ⟨hq, ?_⟩
        rw [List.find?_cons, beq_self_eq_true]
      · obtain ⟨hns, hfind⟩ := ih hp
        have hpq : p.id ≠ q.id := fun e => hns (by simp [e])
        have hne : (q.id == p.id) = false := by
          simpa [beq_eq_false_iff_ne] using (Ne.symm hpq)
        refine ⟨fun hc => hns (List.mem_cons_of_mem _ hc), ?_⟩
        rw [List.find?_cons, hne]
        exact hfind

theorem idsOf_dedupByIdAux_nodup : ∀ (seen : List Int) (l : List Point),
    (idsOf (dedupByIdAux seen l)).Nodup ∧
    ∀ i ∈ idsOf (dedupByIdAux seen l), i ∉ seen := by
  intro seen l
  induction l generalizing seen with
  | nil => simp [dedupByIdAux, idsOf]
  | cons p ps ih =>
    by_cases h : p.id ∈ seen
    · rw [dedupByIdAux, if_pos (by simpa using h)]
      exact ih seen
    · rw [dedupByIdAux, if_neg (by simpa using h)]
      obtain ⟨hnd, hout⟩ := ih (p.id :: seen)
      simp only [idsOf, List.map_cons, List.nodup_cons] at *
      refine ⟨⟨fun hc => ?_, hnd⟩, fun i hi => ?_⟩
      · exact hout p.id hc (List.mem_cons_self _ _)
      · rcases List.mem_cons.mp hi with rfl | hi
        · exact h
        · exact fun hc => hout i hi (List.mem_cons_of_mem _ hc)

theorem mem_idsOf {l : List Point} {i : Int} : i ∈ idsOf l ↔ ∃ p ∈ l, p.id = i := by
  simp [idsOf]

theorem mem_idsOf_dedupByIdAux : ∀ {seen : List Int} {l : List Point} {i : Int},
    i ∉ seen → (i ∈ idsOf (dedupByIdAux seen l) ↔ i ∈ idsOf l) := by
  intro seen l
  induction l generalizing seen with
  | nil => intro i _; simp [dedupByIdAux]
  | cons p ps ih =>
    intro i hi
    by_cases h : p.id ∈ seen
    · rw [dedupByIdAux, if_pos (by simpa using h)]
      rw [ih hi]
      simp only [idsOf, List.map_cons, List.mem_cons]
      constructor
      · exact Or.inr
      · rintro (rfl | hmem)
        · exact absurd h hi
        · exact hmem
    · rw [dedupByIdAux, if_neg (by simpa using h)]
      simp only [idsOf, List.map_cons, List.mem_cons]
      by_cases hip : i = p.id
      · subst hip; simp
      · have hseen : i ∉ p.id :: seen := by
          simp only [List.mem_cons]
          push_neg
          exact ⟨hip, hi⟩
        constructor
        · rintro (h1 | h1)
          · exact Or.inl h1
          · exact Or.inr ((ih hseen).mp h1)
        · rintro (h1 | h1)
          · exact Or.inl h1
          · exact Or.inr ((ih hseen).mpr h1)

theorem idsOf_sortPoints_mem {l : List Point} {i : Int} :
    i ∈ idsOf (sortPoints l) ↔ i ∈ idsOf l :=
  ((sortPoints_perm l).map (·.id)).mem_iff

theorem mem_of_mem_deduplicateAndSort {l : List Point} {p : Point}
    (h : p ∈ deduplicateAndSort l) : p ∈ l :=
  mem_of_mem_dedupByIdAux (mem_sortPoints.mp h)

theorem idsOf_deduplicateAndSort_nodup (l : List Point) :
    (idsOf (deduplicateAndSort l)).Nodup := by
  have h := (idsOf_dedupByIdAux_nodup [] l).1
  unfold idsOf at h ⊢
  exact (((sortPoints_perm (dedupByIdAux [] l)).map (·.id)).nodup_iff).mpr h

theorem mem_idsOf_deduplicateAndSort {l : List Point} {i : Int} :
    i ∈ idsOf (deduplicateAndSort l) ↔ i ∈ idsOf l := by
  unfold deduplicateAndSort
  rw [idsOf_sortPoints_mem]
  exact mem_idsOf_dedupByIdAux (List.not_mem_nil i)

theorem deduplicateAndSort_sorted (l : List Point) :
    (deduplicateAndSort l).Sorted pLe :=
  sortPoints_sorted _

end PointSetUtils

/-! ## The two proper-group classifiers agree -/

namespace QueryEngine

theorem allWithinValid_iff {valid : Rectangle} {pop : List Point} {g : Int} :
    allWithinValid valid pop g = true ↔ ∀ p ∈ pop, p.group_id = g → valid.containsPt p := by
  unfold allWithinValid
  rw [List.all_eq_true]
  constructor
  · intro h p hp hg
    have := h p hp
    simp only [Bool.or_eq_true, decide_eq_true_eq, ne_eq] at this
    rcases this with h1 | h1
    · exact absurd hg (by simpa using h1)
    · exact h1
  · intro h p hp
    simp only [Bool.or_eq_true, decide_eq_true_eq, ne_eq]
    by_cases hg : p.group_id = g
    · exact Or.inr (h p hp hg)
    · exact Or.inl (by simpa using hg)

theorem mem_properGroupsList {valid : Rectangle} {pop : List Point} {g : Int} :
    g ∈ properGroupsList valid pop ↔
      (∃ p ∈ pop, p.group_id = g) ∧ ∀ p ∈ pop, p.group_id = g → valid.containsPt p := by
  unfold properGroupsList
  rw [List.mem_filter, List.mem_dedup, List.mem_map, allWithinValid_iff]

end QueryEngine

namespace DatabaseManager

theorem le_foldl_min (a v : ℚ) (vs : List ℚ) :
    a ≤ vs.foldl min v ↔ a ≤ v ∧ ∀ x ∈ vs, a ≤ x := by
  induction vs generalizing v with
  | nil => simp
  | cons x xs ih =>
    simp only [List.foldl_cons, List.mem_cons]
    rw [ih]
    constructor
    · rintro ⟨h1, h2⟩
      rw [le_min_iff] at h1
      exact ⟨h1.1, fun y hy => hy.elim (fun e => e ▸ h1.2) (h2 y)⟩
    · rintro ⟨h1, h2⟩
      exact ⟨le_min_iff.mpr ⟨h1, h2 x (Or.inl rfl)⟩, fun y hy => h2 y (Or.inr hy)⟩

theorem foldl_max_le (a v : ℚ) (vs : List ℚ) :
    vs.foldl max v ≤ a ↔ v ≤ a ∧ ∀ x ∈ vs, x ≤ a := by
  induction vs generalizing v with
  | nil => simp
  | cons x xs ih =>
    simp only [List.foldl_cons, List.mem_cons]
    rw [ih]
    constructor
    · rintro ⟨h1, h2⟩
      rw [max_le_iff] at h1
      exact ⟨h1.1, fun y hy => hy.elim (fun e => e ▸ h1.2) (h2 y)⟩
    · rintro ⟨h1, h2⟩
      exact ⟨max_le_iff.mpr ⟨h1, h2 x (Or.inl rfl)⟩, fun y hy => h2 y (Or.inr hy)⟩

/-- On a nonempty group the `HAVING` clause of `getProperGroups` holds
iff every member row lies in the valid region. -/
theorem havingProper_iff {valid : Rectangle} {m : Point} {ms : List Point} :
    havingProper valid (m :: ms) = true ↔ ∀ p ∈ m :: ms, valid.containsPt p := by
  unfold havingProper aggMin aggMax
  simp only [List.map_cons, Bool.and_eq_true, decide_eq_true_eq]
  rw [le_foldl_min, foldl_max_le, le_foldl_min, foldl_max_le]
  unfold Rectangle.containsPt
  constructor
  · rintro ⟨⟨⟨⟨hnx, hax⟩, ⟨hxx, hbx⟩⟩, ⟨hny, hay⟩⟩, ⟨hyy, hby⟩⟩
    intro p hp
    rcases List.mem_cons.mp hp with rfl | hp
    · exact ⟨hnx, hxx, hny, hyy⟩
    · refine ⟨hax _ (List.mem_map_of_mem _ hp), hbx _ (List.mem_map_of_mem _ hp),
        hay _ (List.mem_map_of_mem _ hp), hby _ (List.mem_map_of_mem _ hp)⟩
  · intro h
    have hm := h m (List.mem_cons_self m ms)
    refine ⟨⟨⟨⟨hm.1, ?_⟩, ⟨hm.2.1, ?_⟩⟩, ⟨hm.2.2.1, ?_⟩⟩, ⟨hm.2.2.2, ?_⟩⟩ <;>
      · intro v hv
        obtain ⟨p, hp, rfl⟩ := List.mem_map.mp hv
        have := h p (List.mem_cons_of_mem m hp)
        unfold Rectangle.containsPt at this
        tauto

/-- The SQL proper-group classifier computes exactly the brute-force
proper-group list. -/
theorem getProperGroups_eq (valid : Rectangle) (pop : List Point) :
    getProperGroups valid pop = QueryEngine.properGroupsList valid pop := by
  unfold getProperGroups QueryEngine.properGroupsList
  apply List.filter_congr
  intro g hg
  obtain ⟨p, hp, hpg⟩ := List.mem_map.mp (List.mem_dedup.mp hg)
  have hmem : p ∈ pop.filter (fun q => q.group_id = g) := by
    rw [List.mem_filter]
    exact ⟨hp, by simpa using hpg⟩
  rw [Bool.eq_iff_iff]
  obtain ⟨m, ms, hms⟩ := List.exists_cons_of_ne_nil (List.ne_nil_of_mem hmem)
  rw [hms, havingProper_iff, QueryEngine.allWithinValid_iff]
  constructor
  · intro h q hq hqg
    refine h q ?_
    rw [← hms, List.mem_filter]
    exact ⟨hq, by simpa using hqg⟩
  · intro h q hq
    rw [← hms, List.mem_filter] at hq
    exact h q hq.1 (by simpa using hq.2)

theorem mem_getImproperGroups {valid : Rectangle} {pop : List Point} {g : Int} :
    g ∈ getImproperGroups valid pop ↔
      (∃ p ∈ pop, p.group_id = g) ∧ g ∉ QueryEngine.properGroupsList valid pop := by
  unfold getImproperGroups
  rw [List.mem_filter, List.mem_dedup, List.mem_map, getProperGroups_eq]
  simp [List.elem_iff]

end DatabaseManager

/-! ## The database evaluator refines the brute-force evaluator -/

theorem matchesCrop_iff {q : CropQuery} {pg : List Int} {p : Point} :
    QueryEngine.matchesCrop q pg p = true ↔
      q.region.containsPt p ∧
      (q.category_filter = [] ∨ p.category ∈ q.category_filter) ∧
      (q.group_filter = [] ∨ p.group_id ∈ q.group_filter) ∧
      (match q.proper with
       | none => True
       | some true => p.group_id ∈ pg
       | some false => p.group_id ∉ pg) := by
  unfold QueryEngine.matchesCrop
  cases q.proper with
  | none =>
    simp [List.isEmpty_iff, List.elem_iff, and_assoc]
  | some b =>
    cases b <;> simp [List.isEmpty_iff, List.elem_iff, and_assoc]

theorem sqlWhere_iff {crop : Rectangle} {catf grpf pg : List Int} {p : Point} :
    DatabaseManager.sqlWhere crop catf grpf pg p = true ↔
      crop.containsPt p ∧ (catf = [] ∨ p.category ∈ catf) ∧
      (grpf = [] ∨ p.group_id ∈ grpf) ∧ (pg = [] ∨ p.group_id ∈ pg) := by
  unfold DatabaseManager.sqlWhere Rectangle.containsPt
  simp [List.isEmpty_iff, List.elem_iff, and_assoc]

/-- The (spec-modelled) database-backed `executeCropQuery` and the
in-memory `executeQueryBruteForce` agree on every query and every point
population. -/
theorem executeCropQuery_eq_bruteForce (vr : Rectangle) (q : CropQuery) (pop : List Point) :
    DatabaseManager.executeCropQuery q.region vr q.category_filter q.group_filter q.proper pop
      = QueryEngine.executeQueryBruteForce vr q pop := by
  unfold DatabaseManager.executeCropQuery QueryEngine.executeQueryBruteForce
  cases hq : q.proper with
  | none =>
    simp only [hq, Option.isSome_none, if_neg, Bool.false_eq_true, if_false]
    unfold DatabaseManager.runSelect
    apply congrArg sortPoints
    apply List.filter_congr
    intro p _
    rw [Bool.eq_iff_iff, sqlWhere_iff, matchesCrop_iff, hq]
    simp
  | some b =>
    have hpg : DatabaseManager.getProperGroups vr pop = QueryEngine.properGroupsList vr pop :=
      DatabaseManager.getProperGroups_eq vr pop
    cases b with
    | true =>
      simp only [hq, Option.isSome_some, if_pos]
      by_cases hempty : (DatabaseManager.getProperGroups vr pop).isEmpty
      · rw [if_pos hempty]
        have hnil : QueryEngine.properGroupsList vr pop = [] := by
          rw [← hpg]; exact List.isEmpty_iff.mp hempty
        have hfil : pop.filter (QueryEngine.matchesCrop q (QueryEngine.properGroupsList vr pop)) = [] := by
          rw [List.filter_eq_nil_iff]
          intro p _ hmp
          have h := matchesCrop_iff.mp hmp
          rw [hq] at h
          have := h.2.2.2
          rw [hnil] at this
          simp at this
        rw [hfil]
        rfl
      · rw [if_neg hempty]
        unfold DatabaseManager.runSelect
        apply congrArg sortPoints
        apply List.filter_congr
        intro p _
        rw [Bool.eq_iff_iff, sqlWhere_iff, matchesCrop_iff, hq, hpg]
        have hne : QueryEngine.properGroupsList vr pop ≠ [] := by
          rw [← hpg]
          simpa [List.isEmpty_iff] using hempty
        simp only [and_congr_right_iff]
        intro _ _ _
        constructor
        · rintro (hnil | hmem)
          · exact absurd hnil hne
          · exact hmem
        · exact Or.inr
    | false =>
      simp only [hq, Option.isSome_some, if_pos]
      by_cases hempty : (DatabaseManager.getImproperGroups vr pop).isEmpty
      · rw [if_pos hempty]
        have hig : ∀ g, g ∉ DatabaseManager.getImproperGroups vr pop := by
          intro g
          rw [List.isEmpty_iff.mp hempty]
          exact List.not_mem_nil g
        have hfil : pop.filter (QueryEngine.matchesCrop q (QueryEngine.properGroupsList vr pop)) = [] := by
          rw [List.filter_eq_nil_iff]
          intro p hp hmp
          have h := matchesCrop_iff.mp hmp
          rw [hq] at h
          have hnotin := h.2.2.2
          have : p.group_id ∈ DatabaseManager.getImproperGroups vr pop :=
            DatabaseManager.mem_getImproperGroups.mpr ⟨⟨p, hp, rfl⟩, hnotin⟩
          exact hig _ this
        rw [hfil]
        rfl
      · rw [if_neg hempty]
        unfold DatabaseManager.runSelect
        apply congrArg sortPoints
        apply List.filter_congr
        intro p hp
        rw [Bool.eq_iff_iff, sqlWhere_iff, matchesCrop_iff, hq]
        simp only [and_congr_right_iff]
        intro _ _ _
        have hne : DatabaseManager.getImproperGroups vr pop ≠ [] := by
          simpa [List.isEmpty_iff] using hempty
        constructor
        · rintro (hnil | hmem)
          · exact absurd hnil hne
          · exact (DatabaseManager.mem_getImproperGroups.mp hmem).2
        · intro hnotin
          exact Or.inr (DatabaseManager.mem_getImproperGroups.mpr ⟨⟨p, hp, rfl⟩, hnotin⟩)

/-! ## Lemmas about the operator layer -/

namespace PointSetUtils

theorem intersectPoints_sorted (sets : List (List Point)) :
    (intersectPoints sets).Sorted pLe := by
  unfold intersectPoints
  match sets with
  | [] => exact List.sorted_nil
  | s :: rest =>
    by_cases h : rest.isEmpty <;> simp only [h, if_pos, if_neg, Bool.false_eq_true] <;>
      exact deduplicateAndSort_sorted _

theorem intersectPoints_idsNodup (sets : List (List Point)) :
    (idsOf (intersectPoints sets)).Nodup := by
  unfold intersectPoints
  match sets with
  | [] => simp [idsOf]
  | s :: rest =>
    by_cases h : rest.isEmpty <;> simp only [h, if_pos, if_neg, Bool.false_eq_true] <;>
      exact idsOf_deduplicateAndSort_nodup _

theorem mem_intersectPoints_head {s : List Point} {rest : List (List Point)} {p : Point}
    (h : p ∈ intersectPoints (s :: rest)) : p ∈ s := by
  have heq : intersectPoints (s :: rest) =
      if rest.isEmpty then deduplicateAndSort s
      else deduplicateAndSort (s.filter (fun p =>
        (rest.foldl (fun acc t => acc.filter (fun i => (idsOf t).contains i)) (idsOf s)).contains p.id)) := rfl
  by_cases he : rest.isEmpty
  · rw [heq, if_pos he] at h
    exact mem_of_mem_deduplicateAndSort h
  · rw [heq, if_neg he] at h
    exact List.mem_of_mem_filter (mem_of_mem_deduplicateAndSort h)

theorem unionPoints_sorted (sets : List (List Point)) :
    (unionPoints sets).Sorted pLe :=
  deduplicateAndSort_sorted _

theorem unionPoints_idsNodup (sets : List (List Point)) :
    (idsOf (unionPoints sets)).Nodup :=
  idsOf_deduplicateAndSort_nodup _

theorem mem_unionPoints_flatten {sets : List (List Point)} {p : Point}
    (h : p ∈ unionPoints sets) : p ∈ sets.flatten :=
  mem_of_mem_dedupByIdAux (mem_of_mem_deduplicateAndSort h)

theorem mem_idsOf_filter {l : List Point} {f : Point → Bool} {i : Int} :
    i ∈ idsOf (l.filter f) ↔ ∃ p ∈ l, f p = true ∧ p.id = i := by
  simp only [idsOf, List.mem_map, List.mem_filter]
  constructor
  · rintro ⟨p, ⟨hp, hf⟩, rfl⟩
    exact ⟨p, hp, hf, rfl⟩
  · rintro ⟨p, hp, hf, rfl⟩
    exact ⟨p, ⟨hp, hf⟩, rfl⟩

theorem mem_idsOf_unionPoints {sets : List (List Point)} {i : Int} :
    i ∈ idsOf (unionPoints sets) ↔ ∃ s ∈ sets, i ∈ idsOf s := by
  unfold unionPoints
  rw [mem_idsOf_deduplicateAndSort, mem_idsOf_dedupByIdAux (List.not_mem_nil i)]
  simp only [idsOf, List.mem_map, List.mem_flatten]
  constructor
  · rintro ⟨p, ⟨s, hs, hp⟩, rfl⟩
    exact ⟨s, hs, p, hp, rfl⟩
  · rintro ⟨s, hs, p, hp, rfl⟩
    exact ⟨p, ⟨s, hs, hp⟩, rfl⟩

theorem mem_idsOf_intersectPoints_pair {a b : List Point} {i : Int} :
    i ∈ idsOf (intersectPoints [a, b]) ↔ i ∈ idsOf a ∧ i ∈ idsOf b := by
  have heq : intersectPoints [a, b] =
      deduplicateAndSort (a.filter (fun p =>
        ((idsOf a).filter (fun j => (idsOf b).contains j)).contains p.id)) := rfl
  rw [heq, mem_idsOf_deduplicateAndSort, mem_idsOf_filter]
  constructor
  · rintro ⟨p, hp, hf, rfl⟩
    have hf2 := List.mem_filter.mp (List.elem_iff.mp hf)
    refine ⟨mem_idsOf.mpr ⟨p, hp, rfl⟩, ?_⟩
    simpa using hf2.2
  · rintro ⟨ha, hb⟩
    obtain ⟨p, hp, rfl⟩ := mem_idsOf.mp ha
    refine ⟨p, hp, ?_, rfl⟩
    rw [List.elem_iff, List.mem_filter]
    refine ⟨mem_idsOf.mpr ⟨p, hp, rfl⟩, ?_⟩
    simpa using hb

end PointSetUtils

namespace AndOperator

theorem run_cons_of_ne {r : List Point} {rest : List (List Point)} (h : r.isEmpty = false) :
    run (r :: rest) = (r :: (run rest).1, (run rest).2.1 + 1, (run rest).2.2) := by
  simp [run, h]

theorem run_cons_of_empty {rest : List (List Point)} :
    run ([] :: rest) = ([[]], 1, true) := by
  simp [run]

/-- The short-circuit behaviour of the `AndOperator::execute` loop: if
the children before position `k` all produce nonempty results and the
child at position `k` produces an empty one, the loop runs exactly
`k + 1` children and flags early termination, collecting the results of
the children it ran. -/
theorem run_short : ∀ (pre : List (List Point)) (post : List (List Point)),
    (∀ r ∈ pre, r ≠ []) →
    (run (pre ++ [] :: post)).2 = (pre.length + 1, true) := by
  intro pre post hpre
  induction pre with
  | nil => simp [run_cons_of_empty]
  | cons r pre ih =>
    have hr : r.isEmpty = false := by
      simp only [List.isEmpty_eq_false_iff_exists_mem]
      obtain ⟨x, hx⟩ := List.exists_mem_of_ne_nil r (hpre r (List.mem_cons_self r pre))
      exact ⟨x, hx⟩
    rw [List.cons_append, run_cons_of_ne hr]
    have ih2 := ih (fun s hs => hpre s (List.mem_cons_of_mem r hs))
    simp only [List.length_cons]
    rw [Prod.ext_iff] at ih2 ⊢
    simp only at ih2 ⊢
    exact ⟨by rw [ih2.1], ih2.2⟩

theorem execute_cons {r : List Point} {rest : List (List Point)} :
    execute (r :: rest) =
      (if (run (r :: rest)).2.2 then [] else PointSetUtils.intersectPoints (run (r :: rest)).1) := by
  show (match run (r :: rest) with
        | (collected, _, early) => if early then [] else PointSetUtils.intersectPoints collected) = _
  rcases run (r :: rest) with ⟨c, n, e⟩
  rfl

theorem and_execute_sorted (rs : List (List Point)) : (execute rs).Sorted pLe := by
  match rs with
  | [] => exact List.sorted_nil
  | r :: rest =>
    rw [execute_cons]
    by_cases h : (run (r :: rest)).2.2
    · rw [if_pos h]; exact List.sorted_nil
    · rw [if_neg h]; exact PointSetUtils.intersectPoints_sorted _

theorem and_execute_idsNodup (rs : List (List Point)) :
    (PointSetUtils.idsOf (execute rs)).Nodup := by
  match rs with
  | [] => simp [execute, PointSetUtils.idsOf]
  | r :: rest =>
    rw [execute_cons]
    by_cases h : (run (r :: rest)).2.2
    · rw [if_pos h]; simp [PointSetUtils.idsOf]
    · rw [if_neg h]; exact PointSetUtils.intersectPoints_idsNodup _

end AndOperator


namespace AndOperator

theorem run_first_of_ne {r : List Point} {rest : List (List Point)} (h : r.isEmpty = false) :
    (run (r :: rest)).1 = r :: (run rest).1 := by
  rw [run_cons_of_ne h]

theorem mem_and_execute_exists {rs : List (List Point)} {p : Point}
    (h : p ∈ execute rs) : ∃ l ∈ rs, p ∈ l := by
  match rs with
  | [] => simp [execute] at h
  | r :: rest =>
    rw [execute_cons] at h
    by_cases he : (run (r :: rest)).2.2
    · rw [if_pos he] at h
      simp at h
    · rw [if_neg he] at h
      by_cases hr : r.isEmpty
      · exfalso
        apply he
        have hnil : r = [] := List.isEmpty_iff.mp hr
        subst hnil
        rw [run_cons_of_empty]
      · have hr2 : r.isEmpty = false := by simpa using hr
        rw [run_first_of_ne hr2] at h
        exact ⟨r, List.mem_cons_self r rest, PointSetUtils.mem_intersectPoints_head h⟩

end AndOperator

namespace OrOperator

theorem or_execute_sorted (rs : List (List Point)) : (execute rs).Sorted pLe := by
  match rs with
  | [] => exact List.sorted_nil
  | r :: rest => exact PointSetUtils.unionPoints_sorted _

theorem or_execute_idsNodup (rs : List (List Point)) :
    (PointSetUtils.idsOf (execute rs)).Nodup := by
  match rs with
  | [] => simp [execute, PointSetUtils.idsOf]
  | r :: rest => exact PointSetUtils.unionPoints_idsNodup _

theorem mem_or_execute_exists {rs : List (List Point)} {p : Point}
    (h : p ∈ execute rs) : ∃ l ∈ rs, p ∈ l := by
  match rs with
  | [] => simp [execute] at h
  | r :: rest =>
    have h2 : p ∈ (r :: rest).flatten := PointSetUtils.mem_unionPoints_flatten h
    exact List.mem_flatten.mp h2

end OrOperator

/-! ## Structural facts about the database crop query -/

namespace DatabaseManager

theorem runSelect_sorted (crop : Rectangle) (cf gf pg : List Int) (pop : List Point) :
    (runSelect crop cf gf pg pop).Sorted pLe :=
  sortPoints_sorted _

theorem executeCropQuery_sorted (crop valid : Rectangle) (cf gf : List Int)
    (proper : Option Bool) (pop : List Point) :
    (executeCropQuery crop valid cf gf proper pop).Sorted pLe := by
  unfold executeCropQuery
  match proper with
  | none => exact runSelect_sorted _ _ _ _ _
  | some true =>
    by_cases h : (getProperGroups valid pop).isEmpty
    · simp only [h, if_pos]; exact List.sorted_nil
    · simp only [h, Bool.false_eq_true, if_neg]; exact runSelect_sorted _ _ _ _ _
  | some false =>
    by_cases h : (getImproperGroups valid pop).isEmpty
    · simp only [h, if_pos]; exact List.sorted_nil
    · simp only [h, Bool.false_eq_true, if_neg]; exact runSelect_sorted _ _ _ _ _

theorem mem_runSelect_subset {crop : Rectangle} {cf gf pg : List Int} {pop : List Point}
    {p : Point} (h : p ∈ runSelect crop cf gf pg pop) : p ∈ pop :=
  List.mem_of_mem_filter (mem_sortPoints.mp h)

theorem mem_executeCropQuery_subset {crop valid : Rectangle} {cf gf : List Int}
    {proper : Option Bool} {pop : List Point} {p : Point}
    (h : p ∈ executeCropQuery crop valid cf gf proper pop) : p ∈ pop := by
  unfold executeCropQuery at h
  match proper, h with
  | none, h => exact mem_runSelect_subset h
  | some true, h =>
    by_cases he : (getProperGroups valid pop).isEmpty
    · simp only [he, if_pos] at h
      simp at h
    · simp only [he, Bool.false_eq_true, if_neg] at h
      exact mem_runSelect_subset h
  | some false, h =>
    by_cases he : (getImproperGroups valid pop).isEmpty
    · simp only [he, if_pos] at h
      simp at h
    · simp only [he, Bool.false_eq_true, if_neg] at h
      exact mem_runSelect_subset h

theorem runSelect_idsNodup {crop : Rectangle} {cf gf pg : List Int} {pop : List Point}
    (hpop : (PointSetUtils.idsOf pop).Nodup) :
    (PointSetUtils.idsOf (runSelect crop cf gf pg pop)).Nodup := by
  unfold runSelect
  have hperm := (sortPoints_perm (pop.filter (sqlWhere crop cf gf pg))).map (·.id)
  refine (hperm.nodup_iff).mpr ?_
  have hsub : List.Sublist ((pop.filter (sqlWhere crop cf gf pg)).map (·.id)) (pop.map (·.id)) :=
    (List.filter_sublist pop).map (·.id)
  exact hpop.sublist hsub

theorem executeCropQuery_idsNodup {crop valid : Rectangle} {cf gf : List Int}
    {proper : Option Bool} {pop : List Point}
    (hpop : (PointSetUtils.idsOf pop).Nodup) :
    (PointSetUtils.idsOf (executeCropQuery crop valid cf gf proper pop)).Nodup := by
  unfold executeCropQuery
  match proper with
  | none => exact runSelect_idsNodup hpop
  | some true =>
    by_cases h : (getProperGroups valid pop).isEmpty
    · simp only [h, if_pos]; simp [PointSetUtils.idsOf]
    · simp only [h, Bool.false_eq_true, if_neg]; exact runSelect_idsNodup hpop
  | some false =>
    by_cases h : (getImproperGroups valid pop).isEmpty
    · simp only [h, if_pos]; simp [PointSetUtils.idsOf]
    · simp only [h, Bool.false_eq_true, if_neg]; exact runSelect_idsNodup hpop

end DatabaseManager

/-! ## Structural facts about tree evaluation -/

theorem QOp.execute_crop_eq (vr : Rectangle) (pop : List Point) (r : Rectangle)
    (c : Option Int) (g : Option (List Int)) (pr : Option Bool) :
    QOp.execute vr pop (.crop r c g pr) =
      DatabaseManager.executeCropQuery r vr
        (match c with | none => [] | some c0 => [c0]) (g.getD []) pr pop := rfl

theorem QOp.execute_and_eq (vr : Rectangle) (pop : List Point) (cs : List QOp) :
    QOp.execute vr pop (.and cs) = AndOperator.execute (QOp.executeList vr pop cs) := rfl

theorem QOp.execute_or_eq (vr : Rectangle) (pop : List Point) (cs : List QOp) :
    QOp.execute vr pop (.or cs) = OrOperator.execute (QOp.executeList vr pop cs) := rfl

theorem QOp.executeList_pair (vr : Rectangle) (pop : List Point) (X Y : QOp) :
    QOp.executeList vr pop [X, Y] = [X.execute vr pop, Y.execute vr pop] := rfl

theorem QOp.execute_sorted (vr : Rectangle) (pop : List Point) (t : QOp) :
    (t.execute vr pop).Sorted pLe := by
  match t with
  | .crop r c g pr =>
    rw [QOp.execute_crop_eq]
    exact DatabaseManager.executeCropQuery_sorted _ _ _ _ _ _
  | .and cs =>
    rw [QOp.execute_and_eq]
    exact AndOperator.and_execute_sorted _
  | .or cs =>
    rw [QOp.execute_or_eq]
    exact OrOperator.or_execute_sorted _

theorem QOp.execute_idsNodup (vr : Rectangle) (pop : List Point)
    (hpop : (PointSetUtils.idsOf pop).Nodup) (t : QOp) :
    (PointSetUtils.idsOf (t.execute vr pop)).Nodup := by
  match t with
  | .crop r c g pr =>
    rw [QOp.execute_crop_eq]
    exact DatabaseManager.executeCropQuery_idsNodup hpop
  | .and cs =>
    rw [QOp.execute_and_eq]
    exact AndOperator.and_execute_idsNodup _
  | .or cs =>
    rw [QOp.execute_or_eq]
    exact OrOperator.or_execute_idsNodup _

mutual

theorem QOp.execute_subset (vr : Rectangle) (pop : List Point) :
    ∀ (t : QOp), ∀ p ∈ t.execute vr pop, p ∈ pop
  | .crop r c g pr, p, hp => DatabaseManager.mem_executeCropQuery_subset hp
  | .and cs, p, hp => by
    rw [QOp.execute_and_eq] at hp
    obtain ⟨l, hl, hpl⟩ := AndOperator.mem_and_execute_exists hp
    exact QOp.executeList_subset vr pop cs l hl p hpl
  | .or cs, p, hp => by
    rw [QOp.execute_or_eq] at hp
    obtain ⟨l, hl, hpl⟩ := OrOperator.mem_or_execute_exists hp
    exact QOp.executeList_subset vr pop cs l hl p hpl

theorem QOp.executeList_subset (vr : Rectangle) (pop : List Point) :
    ∀ (ts : List QOp), ∀ l ∈ QOp.executeList vr pop ts, ∀ p ∈ l, p ∈ pop
  | [], l, hl => by simp [QOp.executeList] at hl
  | t :: ts, l, hl => by
    rw [QOp.executeList] at hl
    rcases List.mem_cons.mp hl with rfl | hl2
    · exact fun p hp => QOp.execute_subset vr pop t p hp
    · exact fun p hp => QOp.executeList_subset vr pop ts l hl2 p hp

end

/-! ## Canonical-form extensionality

Over a population with unique ids and pairwise-distinct `(y, x)` keys,
a `(y, x)`-sorted duplicate-free result list is determined by its id
set. -/

theorem eq_of_mem_id {pop : List Point} (hpop : idsUnique pop) {p q : Point}
    (hp : p ∈ pop) (hq : q ∈ pop) (h : p.id = q.id) : p = q :=
  List.inj_on_of_nodup_map hpop hp hq h

theorem sorted_pLt_of_sorted {l pop : List Point} (hsub : ∀ p ∈ l, p ∈ pop)
    (hkeys : keysInj pop) (hnd : l.Nodup) (hs : l.Sorted pLe) : l.Sorted pLt := by
  have hand := (hs : List.Pairwise pLe l).and hnd
  refine hand.imp_of_mem ?_
  intro p q hpm hqm hpq
  obtain ⟨hle, hne⟩ := hpq
  unfold pLe at hle
  unfold pLt
  rcases hle with h1 | ⟨h1, h2⟩
  · exact Or.inl h1
  · rcases lt_or_eq_of_le h2 with h3 | h3
    · exact Or.inr ⟨h1, h3⟩
    · exact absurd (hkeys p (hsub p hpm) q (hsub q hqm) h1 h3) hne

theorem eq_of_canonical {pop l₁ l₂ : List Point}
    (hpop : idsUnique pop) (hkeys : keysInj pop)
    (h1 : ∀ p ∈ l₁, p ∈ pop) (h2 : ∀ p ∈ l₂, p ∈ pop)
    (n1 : (PointSetUtils.idsOf l₁).Nodup) (n2 : (PointSetUtils.idsOf l₂).Nodup)
    (s1 : l₁.Sorted pLe) (s2 : l₂.Sorted pLe)
    (hids : ∀ i, i ∈ PointSetUtils.idsOf l₁ ↔ i ∈ PointSetUtils.idsOf l₂) : l₁ = l₂ := by
  have hmem : ∀ p, p ∈ l₁ ↔ p ∈ l₂ := by
    intro p
    constructor
    · intro hp
      have hid : p.id ∈ PointSetUtils.idsOf l₂ :=
        (hids p.id).mp (PointSetUtils.mem_idsOf.mpr ⟨p, hp, rfl⟩)
      obtain ⟨q, hq, hqid⟩ := PointSetUtils.mem_idsOf.mp hid
      have heq : q = p := eq_of_mem_id hpop (h2 q hq) (h1 p hp) hqid
      exact heq ▸ hq
    · intro hp
      have hid : p.id ∈ PointSetUtils.idsOf l₁ :=
        (hids p.id).mpr (PointSetUtils.mem_idsOf.mpr ⟨p, hp, rfl⟩)
      obtain ⟨q, hq, hqid⟩ := PointSetUtils.mem_idsOf.mp hid
      have heq : q = p := eq_of_mem_id hpop (h1 q hq) (h2 p hp) hqid
      exact heq ▸ hq
  have nd1 : l₁.Nodup := n1.of_map
  have nd2 : l₂.Nodup := n2.of_map
  have hperm : List.Perm l₁ l₂ := (List.perm_ext_iff_of_nodup nd1 nd2).mpr hmem
  exact List.eq_of_perm_of_sorted hperm
    (sorted_pLt_of_sorted h1 hkeys nd1 s1)
    (sorted_pLt_of_sorted h2 hkeys nd2 s2)

/-! ## Two-operand And/Or behaviour -/

namespace AndOperator

theorem execute_pair_left_nil {b : List Point} :
    execute [[], b] = PointSetUtils.intersectPoints [[], b] := by
  rfl

theorem run_pair_of_ne {a b : List Point} (ha : a.isEmpty = false) :
    run [a, b] = (if b.isEmpty then ([a, b], 2, true) else ([a, b], 2, false)) := by
  rw [run_cons_of_ne ha]
  by_cases hb : b.isEmpty
  · have hnil : b = [] := List.isEmpty_iff.mp hb
    subst hnil
    rw [run_cons_of_empty, if_pos (by simp)]
  · have hb2 : b.isEmpty = false := by simpa using hb
    rw [run_cons_of_ne hb2, if_neg (by simpa using hb)]
    rfl

/-- `AndOperator::execute` on two operands is exactly
`intersectPoints` of the two results (first frozen conjunct of the AND
algebra property). -/
theorem execute_pair (a b : List Point) :
    execute [a, b] = PointSetUtils.intersectPoints [a, b] := by
  by_cases ha : a.isEmpty
  · have hnil : a = [] := List.isEmpty_iff.mp ha
    subst hnil
    exact execute_pair_left_nil
  · have ha2 : a.isEmpty = false := by simpa using ha
    rw [execute_cons, run_pair_of_ne ha2]
    by_cases hb : b.isEmpty
    · rw [if_pos hb]
      have hnil : b = [] := List.isEmpty_iff.mp hb
      subst hnil
      have hcommon : ((PointSetUtils.idsOf a).filter
          (fun i => (PointSetUtils.idsOf ([] : List Point)).contains i)) = [] := by
        rw [List.filter_eq_nil_iff]
        intro x _
        simp [PointSetUtils.idsOf]
      have heq : PointSetUtils.intersectPoints [a, []] =
          PointSetUtils.deduplicateAndSort (a.filter (fun p =>
            ((PointSetUtils.idsOf a).filter
              (fun i => (PointSetUtils.idsOf ([] : List Point)).contains i)).contains p.id)) := rfl
      rw [heq, hcommon]
      have hfil : a.filter (fun p => (([] : List Int)).contains p.id) = [] := by
        rw [List.filter_eq_nil_iff]
        intro x _
        simp
      rw [hfil]
      rfl
    · rw [if_neg hb]
      rfl

theorem mem_idsOf_execute_pair {a b : List Point} {i : Int} :
    i ∈ PointSetUtils.idsOf (execute [a, b]) ↔
      i ∈ PointSetUtils.idsOf a ∧ i ∈ PointSetUtils.idsOf b := by
  rw [execute_pair]
  exact PointSetUtils.mem_idsOf_intersectPoints_pair

theorem run_early_of_mem_nil : ∀ {rs : List (List Point)}, [] ∈ rs → (run rs).2.2 = true := by
  intro rs h
  induction rs with
  | nil => simp at h
  | cons r rest ih =>
    by_cases hr : r.isEmpty
    · have hnil : r = [] := List.isEmpty_iff.mp hr
      subst hnil
      rw [run_cons_of_empty]
    · have hr2 : r.isEmpty = false := by simpa using hr
      rw [run_cons_of_ne hr2]
      rcases List.mem_cons.mp h with h1 | h1
      · exact absurd h1.symm (by simpa [List.isEmpty_iff] using hr)
      · exact ih h1

theorem execute_of_mem_nil {rs : List (List Point)} (h : [] ∈ rs) : execute rs = [] := by
  match rs with
  | [] => rfl
  | r :: rest =>
    rw [execute_cons, if_pos (run_early_of_mem_nil h)]

end AndOperator

namespace OrOperator

theorem execute_cons_eq {r : List Point} {rest : List (List Point)} :
    execute (r :: rest) = PointSetUtils.unionPoints (r :: rest) := rfl

theorem mem_idsOf_execute_cons {r : List Point} {rest : List (List Point)} {i : Int} :
    i ∈ PointSetUtils.idsOf (execute (r :: rest)) ↔
      ∃ s ∈ r :: rest, i ∈ PointSetUtils.idsOf s := by
  rw [execute_cons_eq]
  exact PointSetUtils.mem_idsOf_unionPoints

end OrOperator

/-! ## Swap and idempotence of two-operand And/Or over well-formed
populations -/

theorem idsUnique_idsOf {pop : List Point} (h : idsUnique pop) :
    (PointSetUtils.idsOf pop).Nodup := h

theorem execute_and_swap (vr : Rectangle) (pop : List Point)
    (hpop : idsUnique pop) (hkeys : keysInj pop) (X Y : QOp) :
    QOp.execute vr pop (.and [X, Y]) = QOp.execute vr pop (.and [Y, X]) := by
  apply eq_of_canonical hpop hkeys
  · exact fun p hp => QOp.execute_subset vr pop _ p hp
  · exact fun p hp => QOp.execute_subset vr pop _ p hp
  · exact QOp.execute_idsNodup vr pop (idsUnique_idsOf hpop) _
  · exact QOp.execute_idsNodup vr pop (idsUnique_idsOf hpop) _
  · exact QOp.execute_sorted vr pop _
  · exact QOp.execute_sorted vr pop _
  · intro i
    rw [QOp.execute_and_eq, QOp.execute_and_eq, QOp.executeList_pair, QOp.executeList_pair,
      AndOperator.mem_idsOf_execute_pair, AndOperator.mem_idsOf_execute_pair]
    exact and_comm

theorem execute_or_swap (vr : Rectangle) (pop : List Point)
    (hpop : idsUnique pop) (hkeys : keysInj pop) (X Y : QOp) :
    QOp.execute vr pop (.or [X, Y]) = QOp.execute vr pop (.or [Y, X]) := by
  apply eq_of_canonical hpop hkeys
  · exact fun p hp => QOp.execute_subset vr pop _ p hp
  · exact fun p hp => QOp.execute_subset vr pop _ p hp
  · exact QOp.execute_idsNodup vr pop (idsUnique_idsOf hpop) _
  · exact QOp.execute_idsNodup vr pop (idsUnique_idsOf hpop) _
  · exact QOp.execute_sorted vr pop _
  · exact QOp.execute_sorted vr pop _
  · intro i
    rw [QOp.execute_or_eq, QOp.execute_or_eq, QOp.executeList_pair, QOp.executeList_pair,
      OrOperator.mem_idsOf_execute_cons, OrOperator.mem_idsOf_execute_cons]
    simp only [List.mem_cons, List.not_mem_nil, or_false]
    constructor
    · rintro ⟨s, hs, hi⟩
      rcases hs with h1 | h1
      · exact ⟨s, Or.inr h1, hi⟩
      · exact ⟨s, Or.inl h1, hi⟩
    · rintro ⟨s, hs, hi⟩
      rcases hs with h1 | h1
      · exact ⟨s, Or.inr h1, hi⟩
      · exact ⟨s, Or.inl h1, hi⟩

theorem execute_or_idem (vr : Rectangle) (pop : List Point)
    (hpop : idsUnique pop) (hkeys : keysInj pop) (X : QOp) :
    QOp.execute vr pop (.or [X, X]) = QOp.execute vr pop X := by
  apply eq_of_canonical hpop hkeys
  · exact fun p hp => QOp.execute_subset vr pop _ p hp
  · exact fun p hp => QOp.execute_subset vr pop _ p hp
  · exact QOp.execute_idsNodup vr pop (idsUnique_idsOf hpop) _
  · exact QOp.execute_idsNodup vr pop (idsUnique_idsOf hpop) _
  · exact QOp.execute_sorted vr pop _
  · exact QOp.execute_sorted vr pop _
  · intro i
    rw [QOp.execute_or_eq, QOp.executeList_pair, OrOperator.mem_idsOf_execute_cons]
    constructor
    · rintro ⟨s, hs, hi⟩
      rcases List.mem_cons.mp hs with rfl | hs2
      · exact hi
      · rcases List.mem_cons.mp hs2 with rfl | hs3
        · exact hi
        · simp at hs3
    · intro hi
      exact ⟨QOp.execute vr pop X, List.mem_cons_self _ _, hi⟩

/-! ## Membership characterization of the brute-force evaluator -/

theorem bruteForce_mem_char {vr : Rectangle} {q : CropQuery} {pop : List Point} {p : Point} :
    p ∈ QueryEngine.executeQueryBruteForce vr q pop ↔
      p ∈ pop ∧ q.region.containsPt p ∧
      (q.category_filter = [] ∨ p.category ∈ q.category_filter) ∧
      (q.group_filter = [] ∨ p.group_id ∈ q.group_filter) ∧
      (match q.proper with
       | none => True
       | some true => ∀ q2 ∈ pop, q2.group_id = p.group_id → vr.containsPt q2
       | some false => ∃ q2 ∈ pop, q2.group_id = p.group_id ∧ ¬ vr.containsPt q2) := by
  cases hq : q.proper with
  | none =>
    unfold QueryEngine.executeQueryBruteForce
    rw [hq]
    simp only [Option.isSome_none, Bool.false_eq_true, if_false]
    rw [mem_sortPoints, List.mem_filter, and_congr_right_iff]
    intro _
    rw [matchesCrop_iff, hq]
  | some b =>
    unfold QueryEngine.executeQueryBruteForce
    rw [hq]
    simp only [Option.isSome_some, if_true]
    rw [mem_sortPoints, List.mem_filter, and_congr_right_iff]
    intro hp
    rw [matchesCrop_iff, hq]
    rw [and_congr_right_iff]
    intro _
    rw [and_congr_right_iff]
    intro _
    rw [and_congr_right_iff]
    intro _
    cases b with
    | true =>
      rw [QueryEngine.mem_properGroupsList]
      constructor
      · exact fun h => h.2
      · exact fun h => ⟨⟨p, hp, rfl⟩, h⟩
    | false =>
      rw [QueryEngine.mem_properGroupsList]
      constructor
      · intro h
        by_contra hno
        apply h
        refine ⟨⟨p, hp, rfl⟩, ?_⟩
        intro q2 hq2 hg2
        by_contra hq2out
        exact hno ⟨q2, hq2, hg2, hq2out⟩
      · rintro ⟨q2, hq2, hg2, hout⟩ ⟨_, hall⟩
        exact hout (hall q2 hq2 hg2)

/-! ## The frozen claims -/

/-- C1: for every `QuerySpec` and every point population, the primary
(database-backed) evaluator and the reference brute-force linear-scan
evaluator return identical result sequences — the same point ids with
the same point data in the same `(y, x)`-sorted order. -/
theorem claim1_dual_evaluator_agreement (spec : QuerySpec) (pop : List Point) :
    DatabaseManager.executeCropQuery spec.crop_query.region spec.valid_region
        spec.crop_query.category_filter spec.crop_query.group_filter
        spec.crop_query.proper pop
      = QueryEngine.executeQueryBruteForce spec.valid_region spec.crop_query pop :=
  executeCropQuery_eq_bruteForce spec.valid_region spec.crop_query pop

/-- C2: the evaluator interprets the `proper` field as a tri-state —
absent means the proper/improper classification is ignored entirely,
`true` keeps only points of proper groups (all members inside the valid
region), `false` keeps only points of improper groups (some member
outside the valid region). -/
theorem claim2_proper_tristate (vr : Rectangle) (q : CropQuery) (pop : List Point) (p : Point) :
    p ∈ QueryEngine.executeQueryBruteForce vr q pop ↔
      p ∈ pop ∧ q.region.containsPt p ∧
      (q.category_filter = [] ∨ p.category ∈ q.category_filter) ∧
      (q.group_filter = [] ∨ p.group_id ∈ q.group_filter) ∧
      (match q.proper with
       | none => True
       | some true => ∀ q2 ∈ pop, q2.group_id = p.group_id → vr.containsPt q2
       | some false => ∃ q2 ∈ pop, q2.group_id = p.group_id ∧ ¬ vr.containsPt q2) :=
  bruteForce_mem_char

/-- C3: the proper-group classification returns exactly the population's
group ids all of whose points lie inside the valid region; a group with
a point outside is never classified proper; and the SQL classifier
`getProperGroups` computes the same set as the brute-force one. -/
theorem claim3_proper_classification (valid : Rectangle) (pop : List Point) (g : Int) :
    (g ∈ QueryEngine.properGroupsList valid pop ↔
      (∃ p ∈ pop, p.group_id = g) ∧ ∀ p ∈ pop, p.group_id = g → valid.containsPt p) ∧
    ((∃ p ∈ pop, p.group_id = g ∧ ¬ valid.containsPt p) →
      g ∉ QueryEngine.properGroupsList valid pop) ∧
    DatabaseManager.getProperGroups valid pop = QueryEngine.properGroupsList valid pop := by
  refine ⟨QueryEngine.mem_properGroupsList, ?_, DatabaseManager.getProperGroups_eq valid pop⟩
  rintro ⟨p, hp, hg, hout⟩ hmem
  exact hout ((QueryEngine.mem_properGroupsList.mp hmem).2 p hp hg)

/-- C3 witness: in the spec scenario population, group 1 (both points in
the valid region) is proper and group 2 (point 4 outside) is not. -/
theorem claim3_witness :
    1 ∈ QueryEngine.properGroupsList Example.vrMain Example.popMain ∧
    2 ∉ QueryEngine.properGroupsList Example.vrMain Example.popMain :=
  ⟨(claim3_proper_classification Example.vrMain Example.popMain 1).1.mpr
      ⟨⟨⟨10, 10, 1, 1, 1⟩, by decide, by decide⟩, by decide⟩,
   (claim3_proper_classification Example.vrMain Example.popMain 2).2.1
      ⟨⟨40, 40, 4, 2, 1⟩, by decide, by decide, by decide⟩⟩

/-- C4: with unique point ids, the `RequireProper` and `RequireImproper`
leaf results with the same region/category/group filters have disjoint
id sets, and the union of their id sets is the id set of the
unconstrained leaf. -/
theorem claim4_proper_improper_partition (vr region : Rectangle) (catf grpf : List Int)
    (pop : List Point) (hpop : idsUnique pop) :
    (∀ i, i ∈ PointSetUtils.idsOf
            (QueryEngine.executeQueryBruteForce vr ⟨region, catf, grpf, some true⟩ pop) →
          i ∉ PointSetUtils.idsOf
            (QueryEngine.executeQueryBruteForce vr ⟨region, catf, grpf, some false⟩ pop)) ∧
    (∀ i, i ∈ PointSetUtils.idsOf
            (QueryEngine.executeQueryBruteForce vr ⟨region, catf, grpf, none⟩ pop) ↔
          i ∈ PointSetUtils.idsOf
            (QueryEngine.executeQueryBruteForce vr ⟨region, catf, grpf, some true⟩ pop) ∨
          i ∈ PointSetUtils.idsOf
            (QueryEngine.executeQueryBruteForce vr ⟨region, catf, grpf, some false⟩ pop)) := by
  constructor
  · intro i h1 h2
    obtain ⟨p, hp, hpi⟩ := PointSetUtils.mem_idsOf.mp h1
    obtain ⟨q, hq, hqi⟩ := PointSetUtils.mem_idsOf.mp h2
    have hcp := bruteForce_mem_char.mp hp
    have hcq := bruteForce_mem_char.mp hq
    have hpq : p = q := eq_of_mem_id hpop hcp.1 hcq.1 (by rw [hpi, hqi])
    obtain ⟨q2, hq2, hg2, hout⟩ := hcq.2.2.2.2
    exact hout (hcp.2.2.2.2 q2 hq2 (by rw [hg2, hpq]))
  · intro i
    constructor
    · intro h
      obtain ⟨p, hp, hpi⟩ := PointSetUtils.mem_idsOf.mp h
      have hc := bruteForce_mem_char.mp hp
      by_cases hall : ∀ q2 ∈ pop, q2.group_id = p.group_id → vr.containsPt q2
      · refine Or.inl (PointSetUtils.mem_idsOf.mpr ⟨p, ?_, hpi⟩)
        exact bruteForce_mem_char.mpr ⟨hc.1, hc.2.1, hc.2.2.1, hc.2.2.2.1, hall⟩
      · refine Or.inr (PointSetUtils.mem_idsOf.mpr ⟨p, ?_, hpi⟩)
        refine bruteForce_mem_char.mpr ⟨hc.1, hc.2.1, hc.2.2.1, hc.2.2.2.1, ?_⟩
        by_contra hno
        apply hall
        intro q2 hq2 hg2
        by_contra hq2out
        exact hno ⟨q2, hq2, hg2, hq2out⟩
    · intro h
      rcases h with h | h <;>
      · obtain ⟨p, hp, hpi⟩ := PointSetUtils.mem_idsOf.mp h
        have hc := bruteForce_mem_char.mp hp
        refine PointSetUtils.mem_idsOf.mpr ⟨p, ?_, hpi⟩
        exact bruteForce_mem_char.mpr ⟨hc.1, hc.2.1, hc.2.2.1, hc.2.2.2.1, trivial⟩

/-- C4 witness: in the spec scenario, id 1 belongs to the proper-leaf
result, so it is absent from the improper-leaf result. -/
theorem claim4_witness :
    1 ∉ PointSetUtils.idsOf
      (QueryEngine.executeQueryBruteForce Example.vrMain
        ⟨Example.rectAll, [], [], some false⟩ Example.popMain) :=
  (claim4_proper_improper_partition Example.vrMain Example.rectAll [] []
      Example.popMain (by decide)).1 1 (by decide)

/-- C5: whenever some child result is empty the And node returns an
empty result; the operand loop evaluates children in listed order, and
when the children before position `k` are nonempty and the child at `k`
is empty, it returns the empty result immediately, having run exactly
`k + 1` children — the children after position `k` are never evaluated
(the evaluated count plus the number of remaining children equals the
total child count). -/
theorem claim5_and_short_circuit (pre post : List (List Point))
    (hpre : ∀ r ∈ pre, r ≠ []) :
    (∀ rs : List (List Point), [] ∈ rs → AndOperator.execute rs = []) ∧
    AndOperator.execute (pre ++ [] :: post) = [] ∧
    AndOperator.evaluatedCount (pre ++ [] :: post) = pre.length + 1 ∧
    AndOperator.evaluatedCount (pre ++ [] :: post) + post.length
      = (pre ++ [] :: post).length := by
  refine ⟨fun rs h => AndOperator.execute_of_mem_nil h, ?_⟩
  have hrun := AndOperator.run_short pre post hpre
  obtain ⟨r, rest, hsplit⟩ : ∃ r rest, pre ++ [] :: post = r :: rest := by
    cases pre with
    | nil => exact ⟨[], post, rfl⟩
    | cons a t => exact ⟨a, t ++ [] :: post, rfl⟩
  have hcount : AndOperator.evaluatedCount (pre ++ [] :: post) = pre.length + 1 := by
    unfold AndOperator.evaluatedCount
    rw [hrun]
  refine ⟨?_, hcount, ?_⟩
  · rw [hsplit, AndOperator.execute_cons]
    have h22 : (AndOperator.run (r :: rest)).2.2 = true := by
      rw [← hsplit, hrun]
    rw [if_pos h22]
  · rw [hcount]
    simp [List.length_append]
    omega

/-- C5 witness: with one nonempty child, then an empty child, then one
more child, the And result is empty and only two children are run. -/
theorem claim5_witness :
    (∀ rs : List (List Point), [] ∈ rs → AndOperator.execute rs = []) ∧
    AndOperator.execute [[⟨10, 10, 1, 1, 1⟩], [], [⟨20, 20, 2, 1, 1⟩]] = [] ∧
    AndOperator.evaluatedCount [[⟨10, 10, 1, 1, 1⟩], [], [⟨20, 20, 2, 1, 1⟩]] = 2 ∧
    AndOperator.evaluatedCount [[⟨10, 10, 1, 1, 1⟩], [], [⟨20, 20, 2, 1, 1⟩]] + 1 = 3 :=
  claim5_and_short_circuit [[⟨10, 10, 1, 1, 1⟩]] [[⟨20, 20, 2, 1, 1⟩]] (by decide)

/-- C6 counterexample: over the tie population (two distinct points at
(0,0)), `And([X, Y])` is not invariant under swapping the operands — the
sequences list the two tie points in different orders — so the claimed
conjunction fails at this concrete input. -/
theorem claim6_counterexample :
    ¬ (QOp.execute Example.vrMain Example.popTie (.and [Example.opScrambled, Example.opPlain]) =
         PointSetUtils.intersectPoints
           [QOp.execute Example.vrMain Example.popTie Example.opScrambled,
            QOp.execute Example.vrMain Example.popTie Example.opPlain] ∧
       QOp.execute Example.vrMain Example.popTie (.and [Example.opScrambled, Example.opPlain]) =
         QOp.execute Example.vrMain Example.popTie (.and [Example.opPlain, Example.opScrambled])) := by
  decide

/-- C6 (amended): `evaluate(And([X, Y]))` always equals
`intersectById([evaluate(X), evaluate(Y)])`; and when point ids are
unique and no two distinct points of the population share the same
`(y, x)` coordinates, the result is unchanged when the operand order is
swapped. -/
theorem claim6_and_algebra (vr : Rectangle) (pop : List Point) (X Y : QOp)
    (hpop : idsUnique pop) (hkeys : keysInj pop) :
    QOp.execute vr pop (.and [X, Y]) =
      PointSetUtils.intersectPoints [QOp.execute vr pop X, QOp.execute vr pop Y] ∧
    QOp.execute vr pop (.and [X, Y]) = QOp.execute vr pop (.and [Y, X]) := by
  constructor
  · rw [QOp.execute_and_eq, QOp.executeList_pair]
    exact AndOperator.execute_pair _ _
  · exact execute_and_swap vr pop hpop hkeys X Y

/-- C6 witness: over the spec scenario population (distinct coordinates,
unique ids) the And algebra identities hold for a category leaf and a
plain leaf. -/
theorem claim6_witness :
    QOp.execute Example.vrMain Example.popMain (.and [Example.leafCat1, Example.opPlain]) =
      PointSetUtils.intersectPoints
        [QOp.execute Example.vrMain Example.popMain Example.leafCat1,
         QOp.execute Example.vrMain Example.popMain Example.opPlain] ∧
    QOp.execute Example.vrMain Example.popMain (.and [Example.leafCat1, Example.opPlain]) =
      QOp.execute Example.vrMain Example.popMain (.and [Example.opPlain, Example.leafCat1]) :=
  claim6_and_algebra Example.vrMain Example.popMain Example.leafCat1 Example.opPlain
    (by decide) (by decide)

/-- C7 counterexample: over the tie population, `Or([X, Y])` and
`Or([Y, X])` return the two tie points in different orders, so the
claimed operand-order independence fails at this concrete input. -/
theorem claim7_counterexample :
    ¬ (QOp.execute Example.vrMain Example.popTie (.or [Example.leafCat1, Example.leafCat2]) =
         QOp.execute Example.vrMain Example.popTie (.or [Example.leafCat2, Example.leafCat1])) := by
  decide

/-- C7 (amended): when point ids are unique and no two distinct points
of the population share the same `(y, x)` coordinates,
`evaluate(Or([X, Y]))` is independent of operand order,
`evaluate(Or([X, X])) = evaluate(X)`, and every id appears exactly once
in the output. -/
theorem claim7_or_algebra (vr : Rectangle) (pop : List Point) (X Y : QOp)
    (hpop : idsUnique pop) (hkeys : keysInj pop) :
    QOp.execute vr pop (.or [X, Y]) = QOp.execute vr pop (.or [Y, X]) ∧
    QOp.execute vr pop (.or [X, X]) = QOp.execute vr pop X ∧
    (PointSetUtils.idsOf (QOp.execute vr pop (.or [X, Y]))).Nodup :=
  ⟨execute_or_swap vr pop hpop hkeys X Y,
   execute_or_idem vr pop hpop hkeys X,
   QOp.execute_idsNodup vr pop (idsUnique_idsOf hpop) _⟩

/-- C7 witness: over the spec scenario population the Or algebra
identities hold for a category leaf and a plain leaf. -/
theorem claim7_witness :
    QOp.execute Example.vrMain Example.popMain (.or [Example.leafCat1, Example.opPlain]) =
      QOp.execute Example.vrMain Example.popMain (.or [Example.opPlain, Example.leafCat1]) ∧
    QOp.execute Example.vrMain Example.popMain (.or [Example.leafCat1, Example.leafCat1]) =
      QOp.execute Example.vrMain Example.popMain Example.leafCat1 ∧
    (PointSetUtils.idsOf
      (QOp.execute Example.vrMain Example.popMain (.or [Example.leafCat1, Example.opPlain]))).Nodup :=
  claim7_or_algebra Example.vrMain Example.popMain Example.leafCat1 Example.opPlain
    (by decide) (by decide)

/-- C8: query execution reports a validation error exactly when the
valid region or the crop region is invalid (min greater than max on an
axis), and in that case no evaluation result is produced; with valid
regions the evaluation always proceeds — a crop region disjoint from the
valid region is non-fatal and may legitimately produce an empty result. -/
theorem claim8_validation :
    (∀ (spec : QuerySpec) (pop : List Point),
      ((∃ e, QueryEngine.executeQueryChecked spec pop = .error e) ↔
        ¬ spec.valid_region.isValid ∨ ¬ spec.crop_query.region.isValid) ∧
      (spec.valid_region.isValid → spec.crop_query.region.isValid →
        QueryEngine.executeQueryChecked spec pop =
          .ok (QueryEngine.executeQueryBruteForce spec.valid_region spec.crop_query pop))) ∧
    (∃ (spec : QuerySpec) (pop : List Point),
      spec.valid_region.isValid ∧ spec.crop_query.region.isValid ∧
      ¬ spec.valid_region.intersects spec.crop_query.region ∧
      QueryEngine.executeQueryChecked spec pop = .ok []) := by
  constructor
  · intro spec pop
    by_cases h1 : spec.valid_region.isValid
    · by_cases h2 : spec.crop_query.region.isValid
      · have hv : QueryEngine.validateQuery spec = none := by
          unfold QueryEngine.validateQuery
          rw [if_neg (not_not_intro h1), if_neg (not_not_intro h2)]
        constructor
        · unfold QueryEngine.executeQueryChecked
          rw [hv]
          constructor
          · rintro ⟨e, he⟩
            exact absurd he (by simp)
          · rintro (hc | hc)
            · exact absurd h1 hc
            · exact absurd h2 hc
        · intro _ _
          unfold QueryEngine.executeQueryChecked
          rw [hv]
      · have hv : QueryEngine.validateQuery spec =
            some "Invalid crop region: p_min must be <= p_max in both dimensions" := by
          unfold QueryEngine.validateQuery
          rw [if_neg (not_not_intro h1), if_pos h2]
        refine ⟨?_, fun _ hc2 => absurd hc2 h2⟩
        unfold QueryEngine.executeQueryChecked
        rw [hv]
        constructor
        · intro _
          exact Or.inr h2
        · intro _
          exact ⟨_, rfl⟩
    · have hv : QueryEngine.validateQuery spec =
          some "Invalid valid_region: p_min must be <= p_max in both dimensions" := by
        unfold QueryEngine.validateQuery
        rw [if_pos h1]
      refine ⟨?_, fun hc1 _ => absurd hc1 h1⟩
      unfold QueryEngine.executeQueryChecked
      rw [hv]
      constructor
      · intro _
        exact Or.inl h1
      · intro _
        exact ⟨_, rfl⟩
  · refine ⟨⟨⟨0, 0, 10, 10⟩, ⟨⟨50, 50, 60, 60⟩, [], [], none⟩⟩, Example.popMain,
      by decide, by decide, by decide, by rfl⟩

/-- C8 witness: a valid spec over the scenario population evaluates to
an `ok` result produced by the brute-force evaluation. -/
theorem claim8_witness :
    QueryEngine.executeQueryChecked ⟨Example.vrMain, ⟨Example.rectAll, [], [], none⟩⟩
        Example.popMain =
      .ok (QueryEngine.executeQueryBruteForce Example.vrMain
        ⟨Example.rectAll, [], [], none⟩ Example.popMain) :=
  (claim8_validation.1 ⟨Example.vrMain, ⟨Example.rectAll, [], [], none⟩⟩ Example.popMain).2
    (by decide) (by decide)

/-- C9: a crop query with the proper flag absent evaluates independently
of the valid region — two runs over the same population with different
valid regions return identical results. -/
theorem claim9_valid_region_noninterference (vr vr2 : Rectangle) (q : CropQuery)
    (pop : List Point) (h : q.proper = none) :
    QueryEngine.executeQueryBruteForce vr q pop
      = QueryEngine.executeQueryBruteForce vr2 q pop := by
  unfold QueryEngine.executeQueryBruteForce
  rw [h]
  simp only [Option.isSome_none, Bool.false_eq_true, if_false]

/-- C9 witness: the unconstrained scenario query returns the same
result for the scenario valid region and a tiny unrelated one. -/
theorem claim9_witness :
    QueryEngine.executeQueryBruteForce Example.vrMain ⟨Example.rectAll, [], [], none⟩
        Example.popMain
      = QueryEngine.executeQueryBruteForce ⟨0, 0, 1, 1⟩ ⟨Example.rectAll, [], [], none⟩
        Example.popMain :=
  claim9_valid_region_noninterference Example.vrMain ⟨0, 0, 1, 1⟩
    ⟨Example.rectAll, [], [], none⟩ Example.popMain rfl

/-- C10: for a non-empty list of input point sets, every point retained
by the union is the first point carrying its id in the concatenation of
the inputs in list order (so its coordinates, category and group come
from the first input set containing that id), and the retained ids are
exactly the ids occurring in some input. -/
theorem claim10_union_first_occurrence (sets : List (List Point)) (hne : sets ≠ []) :
    (∀ p ∈ PointSetUtils.unionPoints sets,
        sets.flatten.find? (fun q => q.id == p.id) = some p) ∧
    (∀ i, i ∈ PointSetUtils.idsOf (PointSetUtils.unionPoints sets) ↔
        ∃ s ∈ sets, i ∈ PointSetUtils.idsOf s) := by
  constructor
  · intro p hp
    unfold PointSetUtils.unionPoints PointSetUtils.deduplicateAndSort at hp
    have h1 := mem_sortPoints.mp hp
    have h2 := PointSetUtils.mem_of_mem_dedupByIdAux h1
    exact (PointSetUtils.find_of_mem_dedupByIdAux h2).2
  · intro i
    exact PointSetUtils.mem_idsOf_unionPoints

/-- C10 witness: with the same id in two input sets carrying different
data, the union keeps the first set's record. -/
theorem claim10_witness :
    ([[⟨10, 10, 1, 1, 1⟩], [⟨10, 10, 1, 99, 99⟩]] : List (List Point)).flatten.find?
        (fun q => q.id == (⟨10, 10, 1, 1, 1⟩ : Point).id)
      = some ⟨10, 10, 1, 1, 1⟩ :=
  (claim10_union_first_occurrence [[⟨10, 10, 1, 1, 1⟩], [⟨10, 10, 1, 99, 99⟩]]
      (by decide)).1 ⟨10, 10, 1, 1, 1⟩ (by decide)
